import Mathlib

/-!
Verification of the translation dispatch engine of `src/trans.py`.

The Python source is shallowly embedded as follows:
* Python floats (wall-clock times, sleep durations) are modelled as `ℚ`.
* The wall clock `time.time()` and the global count of remote translation
  calls are carried in the state `St` together with the `SmartTranslator`
  fields (`current_translator_index`, `request_counts`, `last_request_times`).
  `time.sleep(d)` advances the clock by `d`.
* The remote provider `googletrans` (an external collaborator) is an oracle
  `Env.port : ℕ → String → Except String String`: the outcome of the n-th
  remote call on a given text, `Except.error e` standing for a raised
  exception with message `e`.  The randomized backoff durations drawn by
  `random.uniform` are likewise oracles (`Env.rlSleep`, `Env.errSleep`).
* The thread scheduling of `translate_batch_threaded_safe` is modelled by an
  oracle `Env.sched` giving, for each batch, the order in which the worker
  results come off the result queue; a run in which every worker thread is
  joined corresponds to a schedule that is a permutation of the chunk
  indices.  Each per-text translation result depends only on the port's
  outcome for that text, so this coarse interleaving model captures every
  real interleaving's observable result mapping.
* `pysrt` (external library) parsing is modelled as an
  `Except String (List SubEntry)` input: either a parse failure with a
  message or the parsed list of subtitle entries.
* Python dictionaries keyed by strings are modelled as
  `String → Option String`.
-/

/-! ### Python string primitives -/

/-- Model of list-level prefix test used to implement substring search. -/
def charsStart : List Char → List Char → Bool
  | _, [] => true
  | [], _ :: _ => false
  | c :: cs, n :: ns => c = n && charsStart cs ns

/-- Model of substring containment on character lists. -/
def charsHasSub (needle : List Char) : List Char → Bool
  | [] => charsStart [] needle
  | c :: cs => charsStart (c :: cs) needle || charsHasSub needle cs

/-- Model of Python `needle in hay` on strings. -/
def pyIn (needle hay : String) : Bool :=
  charsHasSub needle.data hay.data

/-- Model of Python `str.lower()` (ASCII letters, which is all the code tests). -/
def pyLower (s : String) : String := s.map Char.toLower

/-- Model of the whitespace characters stripped by Python `str.strip()`. -/
def pyIsSpace (c : Char) : Bool :=
  c = ' ' || c = '\t' || c = '\n' || c = '\r' || c = '\x0c' || c = '\x0b'

/-- Model of the truthiness of Python `text.strip()`: true iff some character
of `text` is not whitespace. -/
def strip_truthy (s : String) : Bool :=
  s.data.any (fun c => !(pyIsSpace c))

/-- Model of Python `sep.join(parts)`. -/
def pyJoin (sep : String) : List String → String
  | [] => ""
  | [x] => x
  | x :: y :: rest => x ++ sep ++ pyJoin sep (y :: rest)

/-- Model of Python `{n:0wd}` zero-padded decimal formatting of a
nonnegative integer. -/
def padNum (w n : ℕ) : String :=
  let s := toString n
  String.mk (List.replicate (w - s.length) '0') ++ s

/-! ### Data model: subtitle entries (pysrt `SubRipItem` / `datetime.time`) -/

/-- Model of the `datetime.time` value returned by `sub.start.to_time()`. -/
structure PyTime where
  hour : ℕ
  minute : ℕ
  second : ℕ
  microsecond : ℕ
deriving DecidableEq, Repr

/-- Model of one parsed subtitle entry (`pysrt` item): its input sequence
number, start and end times, and text.  `srt_to_string` never reads
`index`; it renumbers from 1. -/
structure SubEntry where
  index : ℕ
  start : PyTime
  end_ : PyTime
  text : String
deriving DecidableEq, Repr

/-- Placeholder entry used as the default of `List.getD`. -/
def dummySub : SubEntry := ⟨0, ⟨0, 0, 0, 0⟩, ⟨0, 0, 0, 0⟩, ""⟩

/-! ### SmartTranslator state (`SmartTranslator.__init__`, src/trans.py:18-31) -/

/-- Model of the constant `self.max_requests_per_minute = 45`. -/
def max_requests_per_minute : ℕ := 45

/-- Model of the constant `self.min_delay_between_requests = 0.08`. -/
def min_delay_between_requests : ℚ := 8 / 100

/-- State of one run: the four-slot `SmartTranslator` instance fields, the
wall clock, and the number of remote port calls made so far. -/
structure St where
  currentIndex : Fin 4
  requestCounts : Fin 4 → ℕ
  lastRequestTimes : Fin 4 → ℚ
  now : ℚ
  calls : ℕ

/-- Model of `SmartTranslator.__init__`: fresh instance fields (index 0, all
counters 0, all last-request times 0), leaving the clock and the global call
count of the surrounding world unchanged. -/
def initTranslator (st : St) : St :=
  { st with currentIndex := 0, requestCounts := fun _ => 0,
            lastRequestTimes := fun _ => 0 }

/-- Model of `SmartTranslator.should_wait` (src/trans.py:38-55).  Reads the
clock, returns the boolean and the state after the lazy counter reset. -/
def should_wait (st : St) (idx : Fin 4) : Bool × St :=
  let current_time := st.now
  let last_request := st.lastRequestTimes idx
  if current_time - last_request < min_delay_between_requests then
    (true, st)
  else
    let st1 := if 60 < current_time - last_request then
        { st with requestCounts := Function.update st.requestCounts idx 0 }
      else st
    if max_requests_per_minute ≤ st1.requestCounts idx then (true, st1)
    else (false, st1)

/-- Model of `SmartTranslator.get_next_translator` (src/trans.py:33-36):
round-robin advance modulo 4. -/
def get_next_translator (st : St) : St × Fin 4 :=
  let idx := st.currentIndex + 1
  ({ st with currentIndex := idx }, idx)

/-- The latest of the four slots' last-request times (used only to prove the
acquisition loop terminates). -/
def slotMax (st : St) : ℚ :=
  max (max (st.lastRequestTimes 0) (st.lastRequestTimes 1))
      (max (st.lastRequestTimes 2) (st.lastRequestTimes 3))

/-- Termination measure for the busy-wait loop of
`translate_with_smart_retry`: tenths of a second until the clock passes every
slot's window. -/
def slotMeasure (st : St) : ℕ :=
  (Int.ceil ((slotMax st + 61 - st.now) * 10)).toNat

/-- Model of the slot-acquisition busy-wait of
`translate_with_smart_retry` (src/trans.py:63-65):
`while self.should_wait(translator_index): time.sleep(0.1); ... get_next...`.
Terminates because each sleep advances the clock by 0.1s and a slot whose
window has passed (more than 60s since its last request) is always
eligible. -/
def acquireLoop (st : St) (idx : Fin 4) : St × Fin 4 :=
  if h : (should_wait st idx).1 = true then
    acquireLoop
      (get_next_translator
        { (should_wait st idx).2 with now := (should_wait st idx).2.now + 1 / 10 }).1
      (get_next_translator
        { (should_wait st idx).2 with now := (should_wait st idx).2.now + 1 / 10 }).2
  else ((should_wait st idx).2, idx)
termination_by slotMeasure st
decreasing_by
  have h1 : (should_wait st idx).2.now = st.now := by
    unfold should_wait
    dsimp only
    split_ifs <;> rfl
  have h2 : (should_wait st idx).2.lastRequestTimes = st.lastRequestTimes := by
    unfold should_wait
    dsimp only
    split_ifs <;> rfl
  have hle : st.lastRequestTimes idx ≤ slotMax st := by
    fin_cases idx <;> simp [slotMax, le_max_iff]
  have h3 : st.now ≤ slotMax st + 60 := by
    by_contra hcon
    push_neg at hcon
    have hgt : 60 < st.now - st.lastRequestTimes idx := by linarith
    have hcf : (should_wait st idx).1 = false := by
      unfold should_wait
      dsimp only
      rw [if_neg (by unfold min_delay_between_requests; linarith), if_pos hgt]
      simp [Function.update_same, max_requests_per_minute]
    rw [hcf] at h
    exact Bool.false_ne_true h
  simp only [get_next_translator, slotMeasure, slotMax, h1, h2]
  set M : ℚ := max (max (st.lastRequestTimes 0) (st.lastRequestTimes 1))
      (max (st.lastRequestTimes 2) (st.lastRequestTimes 3)) with hM
  have hx : (M + 61 - (st.now + 1 / 10)) * 10 = (M + 61 - st.now) * 10 - 1 := by
    ring
  rw [hx, Int.ceil_sub_one]
  have h10 : (10 : ℚ) ≤ (M + 61 - st.now) * 10 := by
    have : st.now ≤ M + 60 := h3
    linarith
  have hc : (10 : ℤ) ≤ ⌈(M + 61 - st.now) * 10⌉ := by
    have hcl := Int.le_ceil ((M + 61 - st.now) * 10)
    have hcl2 : (10 : ℚ) ≤ (⌈(M + 61 - st.now) * 10⌉ : ℚ) := le_trans h10 hcl
    exact_mod_cast hcl2
  omega

/-! ### Environment: the external collaborators as oracles -/

/-- Oracles for everything outside the engine: the remote translation port
(indexed by the global call counter), the randomized backoff durations, and
the per-batch order in which threaded worker results come off the queue. -/
structure Env where
  port : ℕ → String → Except String String
  rlSleep : ℕ → ℚ
  errSleep : ℕ → ℚ
  sched : ℕ → List ℕ

/-- Model of the rate-limit test of the except-handler (src/trans.py:78):
`"429" in str(e) or "rate" in str(e).lower()`. -/
def isRateLimited (e : String) : Bool :=
  pyIn "429" e || pyIn "rate" (pyLower e)

/-- Model of the rate-limit reaction (src/trans.py:80): the slot's counter is
forced to `max_requests_per_minute`. -/
def rateLimitPenalty (st : St) (idx : Fin 4) : St :=
  { st with requestCounts :=
      Function.update st.requestCounts idx max_requests_per_minute }

/-- Model of the attempt loop of
`SmartTranslator.translate_with_smart_retry` (src/trans.py:57-91), with
`attempt` the Python loop variable.  Each iteration acquires a slot, makes
one remote call, and on success records the statistics and returns; on an
exception it applies the rate-limit penalty when the message matches, then
retries (after a randomized backoff sleep) while attempts remain, and
otherwise returns the original text. -/
def retryAux (env : Env) (text : String) (max_retries attempt : ℕ) (st : St) :
    String × St :=
  if h : attempt < max_retries then
    let q := acquireLoop (get_next_translator st).1 (get_next_translator st).2
    match env.port q.1.calls text with
    | Except.ok t =>
        (t, { q.1 with
              requestCounts :=
                Function.update q.1.requestCounts q.2 (q.1.requestCounts q.2 + 1),
              lastRequestTimes := Function.update q.1.lastRequestTimes q.2 q.1.now,
              calls := q.1.calls + 1 })
    | Except.error e =>
        let st3 : St := { q.1 with calls := q.1.calls + 1 }
        if isRateLimited e then
          if attempt < max_retries - 1 then
            retryAux env text max_retries (attempt + 1)
              { rateLimitPenalty st3 q.2 with now := st3.now + env.rlSleep st3.calls }
          else
            retryAux env text max_retries (attempt + 1) (rateLimitPenalty st3 q.2)
        else
          if attempt < max_retries - 1 then
            retryAux env text max_retries (attempt + 1)
              { st3 with now := st3.now + env.errSleep st3.calls }
          else
            (text, st3)
  else (text, st)
termination_by max_retries - attempt
decreasing_by all_goals omega

/-- Model of `translate_with_smart_retry` as called from outside: the attempt
loop started at attempt 0. -/
def translate_with_smart_retry (env : Env) (text : String) (max_retries : ℕ)
    (st : St) : String × St :=
  retryAux env text max_retries 0 st

/-! ### Batch dispatch (src/trans.py:93-144) -/

/-- Loop body of `translate_batch_sequential` (src/trans.py:97-104):
translate each text with retry, record `results[text] = translated`, sleep
0.05s.  The `except` arm of the source is unreachable because the embedded
retry function is total. -/
def seqBatchAux (env : Env) :
    List String → St → (String → Option String) → (String → Option String) × St
  | [], st, results => (results, st)
  | text :: rest, st, results =>
      let p := translate_with_smart_retry env text 3 st
      seqBatchAux env rest { p.2 with now := p.2.now + 5 / 100 }
        (fun x => if x = text then some p.1 else results x)

/-- Model of `translate_batch_sequential` (src/trans.py:93-106). -/
def translate_batch_sequential (env : Env) (texts : List String) (st : St) :
    (String → Option String) × St :=
  seqBatchAux env texts st (fun _ => none)

/-- Loop body of the `translate_worker` closure (src/trans.py:113-123): the
same per-text processing with a 0.03s sleep, accumulating into the worker's
own `batch_results` dictionary. -/
def workerAux (env : Env) :
    List String → St → (String → Option String) → (String → Option String) × St
  | [], st, results => (results, st)
  | text :: rest, st, results =>
      let p := translate_with_smart_retry env text 3 st
      workerAux env rest { p.2 with now := p.2.now + 3 / 100 }
        (fun x => if x = text then some p.1 else results x)

/-- Model of one `translate_worker` thread run on its batch. -/
def translate_worker (env : Env) (batch : List String) (st : St) :
    (String → Option String) × St :=
  workerAux env batch st (fun _ => none)

/-- Model of Python `results.update(batch_results)`: the second dictionary's
entries win. -/
def dictUpdate (d1 d2 : String → Option String) : String → Option String :=
  fun x =>
    match d2 x with
    | some v => some v
    | none => d1 x

/-- Model of the slicing loop `for i in range(0, len(texts), batch_size):
texts[i:i + batch_size]` used in src/trans.py:129 and 199. -/
def chunks {α : Type} (bs : ℕ) (l : List α) : List (List α) :=
  if h : bs = 0 ∨ l.isEmpty = true then []
  else l.take bs :: chunks bs (l.drop bs)
termination_by l.length
decreasing_by
  push_neg at h
  obtain ⟨h0, hl⟩ := h
  have hb : 0 < bs := Nat.pos_of_ne_zero h0
  have hne : l ≠ [] := by
    intro hnil
    rw [hnil] at hl
    simp at hl
  have hp : 0 < l.length := List.length_pos.mpr hne
  simp only [List.length_drop]
  omega

/-- Merge loop of `translate_batch_threaded_safe` (src/trans.py:140-142):
worker results are merged in the order they come off the queue, given by the
schedule `sched` of chunk indices. -/
def threadedAux (env : Env) (cs : List (List String)) :
    List ℕ → St → (String → Option String) → (String → Option String) × St
  | [], st, results => (results, st)
  | i :: rest, st, results =>
      let p := translate_worker env (cs.getD i []) st
      threadedAux env cs rest p.2 (dictUpdate results p.1)

/-- Model of `translate_batch_threaded_safe` (src/trans.py:108-144): the
texts are split into chunks of 5, one worker per chunk, and the worker
results are merged in queue order `sched`. -/
def translate_batch_threaded_safe (env : Env) (texts : List String)
    (sched : List ℕ) (st : St) : (String → Option String) × St :=
  threadedAux env (chunks 5 texts) sched st (fun _ => none)

/-! ### Serialization (`srt_to_string`, src/trans.py:146-162) -/

/-- Model of the f-string
`f"{t.hour:02d}:{t.minute:02d}:{t.second:02d},{t.microsecond//1000:03d}"`. -/
def formatPyTime (t : PyTime) : String :=
  padNum 2 t.hour ++ ":" ++ padNum 2 t.minute ++ ":" ++ padNum 2 t.second
    ++ "," ++ padNum 3 (t.microsecond / 1000)

/-- Model of the timing line `f"{start_str} --> {end_str}"`. -/
def timingLine (sub : SubEntry) : String :=
  formatPyTime sub.start ++ " --> " ++ formatPyTime sub.end_

/-- The `result` list built by the loop of `srt_to_string`, with `i` the
1-based enumeration counter. -/
def srtResultList : ℕ → List SubEntry → List String
  | _, [] => []
  | i, sub :: rest =>
      toString i :: timingLine sub :: sub.text :: "" :: srtResultList (i + 1) rest

/-- Model of `srt_to_string` (src/trans.py:146-162):
`"\n".join(result)`. -/
def srt_to_string (subs : List SubEntry) : String :=
  pyJoin "\n" (srtResultList 1 subs)

/-- One serialized block: sequence number, timing line, text — without any
separator. -/
def entryBlock (i : ℕ) (sub : SubEntry) : String :=
  toString i ++ "\n" ++ timingLine sub ++ "\n" ++ sub.text

/-- The blocks of a document, numbered from `i`. -/
def blocksFrom : ℕ → List SubEntry → List String
  | _, [] => []
  | i, sub :: rest => entryBlock i sub :: blocksFrom (i + 1) rest

/-! ### Document pipeline (src/trans.py:164-265) -/

/-- Model of the per-file result dictionary: absent keys are `none`. -/
structure FileResult where
  filename : String
  content : Option String
  status : String
  subtitle_count : Option ℕ
  error : Option String
deriving DecidableEq, Repr

/-- Model of the text-extraction loop (src/trans.py:177-183): one list
element per entry whose text is truthy after stripping — duplicates are NOT
removed. -/
def texts_to_translate (subs : List SubEntry) : List String :=
  (subs.filter (fun sub => strip_truthy sub.text)).map (fun sub => sub.text)

/-- Model of the substitution loop (src/trans.py:219-221): each entry whose
text is truthy and a key of the mapping gets the mapped text. -/
def applySubst (d : String → Option String) (subs : List SubEntry) :
    List SubEntry :=
  subs.map (fun sub =>
    if strip_truthy sub.text && (d sub.text).isSome then
      { sub with text := (d sub.text).getD sub.text }
    else sub)

/-- Model of the batch loop (src/trans.py:199-216): batches of size at most
10 go to the threaded path (with the queue order `env.sched i` for the i-th
batch), larger ones to the sequential path; `translated_texts.update(...)`
merges, and a 0.1s pacing sleep follows each batch. -/
def batchLoop (env : Env) :
    ℕ → List (List String) → St → (String → Option String) →
    (String → Option String) × St
  | _, [], st, d => (d, st)
  | i, batch :: rest, st, d =>
      let p := if batch.length ≤ 10 then
          translate_batch_threaded_safe env batch (env.sched i) st
        else translate_batch_sequential env batch st
      batchLoop env (i + 1) rest { p.2 with now := p.2.now + 1 / 10 }
        (dictUpdate d p.1)

/-- The document-wide mapping and final state produced by one file's batch
processing, from the fresh `SmartTranslator()` created at the top of
`translate_single_file_ultra_fast`. -/
def singleFileCore (env : Env) (subs : List SubEntry) (st : St) :
    (String → Option String) × St :=
  batchLoop env 0 (chunks 25 (texts_to_translate subs)) (initTranslator st)
    (fun _ => none)

/-- The entry list after `translate_single_file_ultra_fast` has applied the
translations: unchanged when nothing is translatable (the early return),
otherwise `applySubst` of the document-wide mapping. -/
def translatedDoc (env : Env) (subs : List SubEntry) (st : St) :
    List SubEntry :=
  if (texts_to_translate subs).isEmpty then subs
  else applySubst (singleFileCore env subs st).1 subs

/-- Model of `translate_single_file_ultra_fast` (src/trans.py:164-244).
Parsing by the external `pysrt.from_string` is an `Except` input; the
source's `try` converts a parse exception into the error result. -/
def translate_single_file_ultra_fast (env : Env)
    (parsed : Except String (List SubEntry)) (filename : String) (st : St) :
    FileResult × St :=
  match parsed with
  | Except.error e =>
      ({ filename := filename, content := none, status := "error",
         subtitle_count := none, error := some e }, st)
  | Except.ok subs =>
      if (texts_to_translate subs).isEmpty then
        ({ filename := filename, content := some (srt_to_string subs),
           status := "success", subtitle_count := some subs.length,
           error := none }, st)
      else
        ({ filename := filename,
           content :=
             some (srt_to_string (applySubst (singleFileCore env subs st).1 subs)),
           status := "success", subtitle_count := some subs.length,
           error := none },
         (singleFileCore env subs st).2)

/-- Model of one uploaded file: its name and the outcome of decoding plus
`pysrt.from_string` on its content. -/
structure FileInfo where
  name : String
  parsed : Except String (List SubEntry)

/-- Model of `translate_multiple_files_sequential` (src/trans.py:246-265):
files are processed one at a time in submission order, with a 0.2s pacing
sleep between files; results are appended in order. -/
def translate_multiple_files_sequential (env : Env) :
    List FileInfo → St → List FileResult × St
  | [], st => ([], st)
  | f :: rest, st =>
      let p := translate_single_file_ultra_fast env f.parsed f.name st
      let q := translate_multiple_files_sequential env rest
        { p.2 with now := p.2.now + 2 / 10 }
      (p.1 :: q.1, q.2)

/-- A schedule oracle is good for a text list when, for every batch, the
queue order is a permutation of that batch's chunk indices — i.e. every
worker thread was started and joined exactly once. -/
def GoodScheds (env : Env) (texts : List String) : Prop :=
  ∀ j, j < (chunks 25 texts).length →
    (env.sched j).Perm
      (List.range (chunks 5 ((chunks 25 texts).getD j [])).length)

/-- The value `translate_with_smart_retry` resolves a text to under a
deterministic port: the port's translation on success, the original text
otherwise. -/
def valOf (portT : String → Except String String) (text : String) : String :=
  match portT text with
  | Except.ok v => v
  | Except.error _ => text

/-! ### Concrete data for witnesses and counterexamples -/

/-- A port behaviour that fails every call with a non-rate-limit message. -/
def envFail : Env :=
  ⟨fun _ _ => Except.error "boom", fun _ => 0, fun _ => 0, fun _ => [0]⟩

/-- A concrete deterministic stub translator mapping Hello to Xin chao. -/
def trFun (t : String) : String :=
  if t = "Hello" then "Xin chào" else t

/-- A port behaviour that succeeds on every call with `trFun`. -/
def envOk : Env :=
  ⟨fun _ t => Except.ok (trFun t), fun _ => 0, fun _ => 0, fun _ => [0]⟩

/-- A concrete start state: clock at 100s, all slots idle since time 0, no
calls made yet. -/
def st0 : St := ⟨0, fun _ => 0, fun _ => 0, 100, 0⟩

/-- A concrete entry: 00:00:01,000 → 00:00:02,500, text Hello. -/
def entryHello : SubEntry :=
  ⟨1, ⟨0, 0, 1, 0⟩, ⟨0, 0, 2, 500000⟩, "Hello"⟩

/-- Three entries all holding the identical text Hello. -/
def subsHello3 : List SubEntry :=
  [entryHello, { entryHello with index := 2 }, { entryHello with index := 3 }]

/-- A document whose input sequence numbers are 5, 9, 9. -/
def subsIdx599 : List SubEntry :=
  [{ entryHello with index := 5 }, { entryHello with index := 9 },
   { entryHello with index := 9, text := "World" }]

/-- A document with one translatable entry and one whitespace-only entry. -/
def subsWs : List SubEntry :=
  [entryHello, { entryHello with index := 2, text := "  " }]

/-- Placeholder file-result used as the default of `List.getD`. -/
def dummyResult : FileResult := ⟨"", none, "", none, none⟩

/-- Placeholder file-info used as the default of `List.getD`. -/
def dummyFile : FileInfo := ⟨"", Except.error ""⟩

/-- A two-file collection: one well-formed document and one whose parse
fails with a format error message. -/
def filesW : List FileInfo :=
  [⟨"good.srt", Except.ok [entryHello]⟩,
   ⟨"bad.srt", Except.error "FormatError: missing timing"⟩]

/-! ### Basic state lemmas -/

theorem should_wait_now (st : St) (idx : Fin 4) :
    (should_wait st idx).2.now = st.now := by
  unfold should_wait
  dsimp only
  split_ifs <;> rfl

theorem should_wait_lasts (st : St) (idx : Fin 4) :
    (should_wait st idx).2.lastRequestTimes = st.lastRequestTimes := by
  unfold should_wait
  dsimp only
  split_ifs <;> rfl

theorem should_wait_calls (st : St) (idx : Fin 4) :
    (should_wait st idx).2.calls = st.calls := by
  unfold should_wait
  dsimp only
  split_ifs <;> rfl

theorem acquireLoop_calls (st : St) (idx : Fin 4) :
    ((acquireLoop st idx).1).calls = st.calls := by
  induction st, idx using acquireLoop.induct with
  | case1 st idx h ih =>
      rw [acquireLoop, dif_pos h]
      rw [ih]
      simp [get_next_translator, should_wait_calls]
  | case2 st idx h =>
      rw [acquireLoop, dif_neg h]
      exact should_wait_calls st idx

/-- C4: a slot is ineligible (`should_wait` returns true) iff less than the
minimum inter-request delay (0.08s) has passed since its last request, or
its request counter — lazily reset to zero whenever more than 60s have
passed since its last request — has reached `max_requests_per_minute`
(45). -/
theorem C4_should_wait_iff (st : St) (idx : Fin 4) :
    (should_wait st idx).1 = true ↔
      (st.now - st.lastRequestTimes idx < min_delay_between_requests ∨
        max_requests_per_minute ≤
          (if 60 < st.now - st.lastRequestTimes idx then 0
           else st.requestCounts idx)) := by
  unfold should_wait
  dsimp only
  split_ifs with h1 h2 h3 <;>
    simp_all [Function.update_same, max_requests_per_minute]

theorem get_next_calls (st : St) :
    ((get_next_translator st).1).calls = st.calls := rfl

theorem acquired_calls (st : St) :
    ((acquireLoop (get_next_translator st).1 (get_next_translator st).2).1).calls
      = st.calls := by
  rw [acquireLoop_calls]
  rfl

theorem retryAux_all_fail (env : Env) (text : String) (n : ℕ) :
    ∀ fuel attempt st, n - attempt = fuel →
    (∀ k, k < fuel → ∃ e, env.port (st.calls + k) text = Except.error e) →
    (retryAux env text n attempt st).1 = text ∧
      ((retryAux env text n attempt st).2).calls = st.calls + fuel := by
  intro fuel
  induction fuel with
  | zero =>
      intro attempt st hf _
      have hnot : ¬ attempt < n := by omega
      rw [retryAux, dif_neg hnot]
      exact ⟨rfl, rfl⟩
  | succ m ih =>
      intro attempt st hf hfail
      have hlt : attempt < n := by omega
      rw [retryAux, dif_pos hlt]
      dsimp only
      rw [acquired_calls]
      obtain ⟨e, he⟩ := hfail 0 (by omega)
      rw [Nat.add_zero] at he
      rw [he]
      dsimp only
      have hshift : ∀ (st' : St), st'.calls = st.calls + 1 →
          (retryAux env text n (attempt + 1) st').1 = text ∧
            ((retryAux env text n (attempt + 1) st').2).calls
              = st.calls + (m + 1) := by
        intro st' hc
        have hr := ih (attempt + 1) st' (by omega) (fun k hk => by
          rw [hc, show st.calls + 1 + k = st.calls + (k + 1) by omega]
          exact hfail (k + 1) (by omega))
        exact ⟨hr.1, by rw [hr.2, hc]; omega⟩
      split_ifs with hrl hatt hatt2
      · exact hshift _ rfl
      · exact hshift _ rfl
      · exact hshift _ rfl
      · have hm : m = 0 := by omega
        subst hm
        exact ⟨rfl, rfl⟩

theorem retryAux_first_success (env : Env) (text : String) (n : ℕ) :
    ∀ j attempt st t, attempt + j < n →
    (∀ k, k < j → ∃ e, env.port (st.calls + k) text = Except.error e) →
    env.port (st.calls + j) text = Except.ok t →
    (retryAux env text n attempt st).1 = t ∧
      ((retryAux env text n attempt st).2).calls = st.calls + j + 1 := by
  intro j
  induction j with
  | zero =>
      intro attempt st t hlt _ hok
      rw [retryAux, dif_pos (by omega)]
      dsimp only
      rw [acquired_calls]
      rw [Nat.add_zero] at hok
      rw [hok]
      exact ⟨rfl, rfl⟩
  | succ m ih =>
      intro attempt st t hlt hfail hok
      rw [retryAux, dif_pos (by omega)]
      dsimp only
      rw [acquired_calls]
      obtain ⟨e, he⟩ := hfail 0 (by omega)
      rw [Nat.add_zero] at he
      rw [he]
      dsimp only
      have hshift : ∀ (st' : St), st'.calls = st.calls + 1 →
          (retryAux env text n (attempt + 1) st').1 = t ∧
            ((retryAux env text n (attempt + 1) st').2).calls
              = st.calls + (m + 1) + 1 := by
        intro st' hc
        have hr := ih (attempt + 1) st' t (by omega) (fun k hk => by
          rw [hc, show st.calls + 1 + k = st.calls + (k + 1) by omega]
          exact hfail (k + 1) (by omega))
          (by rw [hc, show st.calls + 1 + m = st.calls + (m + 1) by omega]
              exact hok)
        exact ⟨hr.1, by rw [hr.2, hc]; omega⟩
      split_ifs with hrl hatt hatt2
      · exact hshift _ rfl
      · exact hshift _ rfl
      · exact hshift _ rfl
      · omega

/-- C2: for every port behaviour, `translate_with_smart_retry` (a total
function — it never raises): if all attempts fail it returns the original
text unchanged after exactly `max_retries` remote attempts, and it returns
the port's translation as soon as any attempt succeeds. -/
theorem C2_retry_fallback_and_success (env : Env) (st : St) (text : String)
    (n : ℕ) :
    ((∀ k, k < n → ∃ e, env.port (st.calls + k) text = Except.error e) →
      (translate_with_smart_retry env text n st).1 = text ∧
        ((translate_with_smart_retry env text n st).2).calls = st.calls + n)
    ∧ (∀ j t, j < n →
        (∀ k, k < j → ∃ e, env.port (st.calls + k) text = Except.error e) →
        env.port (st.calls + j) text = Except.ok t →
        (translate_with_smart_retry env text n st).1 = t) := by
  constructor
  · intro hfail
    exact retryAux_all_fail env text n n 0 st (by omega) hfail
  · intro j t hj hfail hok
    exact (retryAux_first_success env text n j 0 st t (by omega) hfail hok).1

/-- Witness for C2: with a port that fails every call, the retry wrapper
returns the original text after exactly 3 remote attempts. -/
theorem C2_witness :
    (translate_with_smart_retry envFail "Yo" 3 st0).1 = "Yo" ∧
      ((translate_with_smart_retry envFail "Yo" 3 st0).2).calls = 3 := by
  have h := (C2_retry_fallback_and_success envFail st0 "Yo" 3).1
    (fun k _ => ⟨"boom", rfl⟩)
  exact ⟨h.1, h.2⟩

/-- C8: when a remote call fails with a rate-limit error (message containing
"429", or "rate" case-insensitively), the except-handler of
`translate_with_smart_retry` applies `rateLimitPenalty` to the slot that
issued the call, forcing its counter to `max_requests_per_minute`; that slot
then stays ineligible (`should_wait` true) at every clock value within 60s
of its last request. -/
theorem C8_rate_limit_slot_ineligible (st : St) (idx : Fin 4) (e : String)
    (now' : ℚ) (he : isRateLimited e = true)
    (hwin : now' - (rateLimitPenalty st idx).lastRequestTimes idx ≤ 60) :
    (rateLimitPenalty st idx).requestCounts idx = max_requests_per_minute ∧
      (should_wait { rateLimitPenalty st idx with now := now' } idx).1
        = true := by
  constructor
  · simp [rateLimitPenalty, Function.update_same]
  · unfold should_wait
    dsimp only
    split_ifs with h1 h2 h3 h4
    · rfl
    · rfl
    · exfalso
      dsimp [rateLimitPenalty] at h2 hwin
      linarith
    · rfl
    · exfalso
      simp [rateLimitPenalty, Function.update_same, max_requests_per_minute]
        at h4

/-- Witness for C8 at the message "HTTP 429", slot 0, 30 seconds into the
window. -/
theorem C8_witness :
    (rateLimitPenalty st0 0).requestCounts 0 = max_requests_per_minute ∧
      (should_wait { rateLimitPenalty st0 0 with now := 30 } 0).1 = true := by
  exact C8_rate_limit_slot_ineligible st0 0 "HTTP 429" 30 (by decide)
    (by norm_num [rateLimitPenalty, st0])

/-! ### Serialization layout -/

theorem pyJoin_cons_ne (sep x : String) (l : List String) (h : l ≠ []) :
    pyJoin sep (x :: l) = x ++ sep ++ pyJoin sep l := by
  cases l with
  | nil => exact absurd rfl h
  | cons y rest => rfl

theorem nn_split : ("\n\n" : String) = "\n" ++ "\n" := rfl

theorem srt_blocks (i : ℕ) (subs : List SubEntry) (h : subs ≠ []) :
    pyJoin "\n" (srtResultList i subs)
      = pyJoin "\n\n" (blocksFrom i subs) ++ "\n" := by
  induction subs generalizing i with
  | nil => exact absurd rfl h
  | cons s rest ih =>
      cases rest with
      | nil =>
          simp [srtResultList, blocksFrom, pyJoin, entryBlock,
            String.append_assoc, String.append_empty]
      | cons s2 rest2 =>
          have hne : srtResultList (i + 1) (s2 :: rest2) ≠ [] := by
            rw [srtResultList]
            simp
          have hbne : blocksFrom (i + 1) (s2 :: rest2) ≠ [] := by
            rw [blocksFrom]
            simp
          rw [srtResultList, blocksFrom]
          rw [pyJoin_cons_ne _ _ _ (by simp), pyJoin_cons_ne _ _ _ (by simp),
            pyJoin_cons_ne _ _ _ (by simp), pyJoin_cons_ne _ _ _ hne]
          rw [ih (i + 1) (by simp)]
          rw [pyJoin_cons_ne _ _ _ hbne]
          simp only [entryBlock, String.append_assoc, String.empty_append]
          rw [nn_split, String.append_assoc]

/-- C3 counterexample: on a one-entry document the serializer emits the
sequence number, the timing line, the text and a single final newline; it
does NOT emit a blank separator line after the last entry, contradicting
the claim (and the spec's expected end-to-end output, which ends in two
newlines). -/
theorem C3_counterexample :
    srt_to_string [entryHello]
        = "1\n00:00:01,000 --> 00:00:02,500\nHello\n" ∧
      srt_to_string [entryHello]
        ≠ "1\n00:00:01,000 --> 00:00:02,500\nHello\n\n" := by
  constructor <;> decide

/-- C3 (amended): serialization emits for each entry in order a 1-based
sequence number, the timing line with zero-padded two-digit
hours/minutes/seconds and zero-padded three-digit milliseconds (the
microsecond value truncated by integer division, not rounded), and the text
verbatim; consecutive entries are separated by a single blank line, and the
output ends with a single newline directly after the last entry's text — no
blank separator line follows the last entry. -/
theorem C3_serialize_layout (subs : List SubEntry) :
    (srt_to_string subs =
        if subs.isEmpty then ""
        else pyJoin "\n\n" (blocksFrom 1 subs) ++ "\n")
    ∧ ∀ t : PyTime,
        formatPyTime t = padNum 2 t.hour ++ ":" ++ padNum 2 t.minute ++ ":"
          ++ padNum 2 t.second ++ "," ++ padNum 3 (t.microsecond / 1000) := by
  constructor
  · cases subs with
    | nil => rfl
    | cons s rest =>
        rw [if_neg (by simp)]
        exact srt_blocks 1 (s :: rest) (by simp)
  · intro t
    rfl

theorem srtResultList_getD (subs : List SubEntry) :
    ∀ k i, i < subs.length →
      (srtResultList k subs).getD (4 * i) "" = toString (k + i) := by
  induction subs with
  | nil =>
      intro k i h
      simp at h
  | cons s rest ih =>
      intro k i h
      cases i with
      | zero => simp [srtResultList]
      | succ m =>
          have h4 : 4 * (m + 1) = 4 * m + 1 + 1 + 1 + 1 := by ring
          rw [srtResultList, h4]
          simp only [List.getD_cons_succ]
          rw [ih (k + 1) m (by simpa using h)]
          congr 1
          omega

theorem srtResultList_map_index (f : ℕ → ℕ) (subs : List SubEntry) :
    ∀ k, srtResultList k (subs.map fun s => { s with index := f s.index })
      = srtResultList k subs := by
  induction subs with
  | nil => intro k; rfl
  | cons s rest ih =>
      intro k
      simp only [List.map_cons, srtResultList, ih]
      rfl

/-- C7: serialization assigns sequence numbers `1..N` in entry order — the
element of the serializer's line list at position `4*i` is the string of
`i+1` — and the output is entirely independent of the entries' input
`index` fields, so renumbering is unconditional. -/
theorem C7_renumbering (subs : List SubEntry) :
    (∀ i, i < subs.length →
        (srtResultList 1 subs).getD (4 * i) "" = toString (i + 1))
    ∧ ∀ f : ℕ → ℕ,
        srt_to_string (subs.map fun s => { s with index := f s.index })
          = srt_to_string subs := by
  constructor
  · intro i h
    rw [srtResultList_getD subs 1 i h]
    congr 1
    omega
  · intro f
    unfold srt_to_string
    rw [srtResultList_map_index]

/-- Witness for C7: a document with input sequence numbers 5, 9, 9
serializes with output sequence numbers 1, 2, 3. -/
theorem C7_witness :
    (srtResultList 1 subsIdx599).getD 0 "" = "1" ∧
      (srtResultList 1 subsIdx599).getD 4 "" = "2" ∧
      (srtResultList 1 subsIdx599).getD 8 "" = "3" := by
  have h := (C7_renumbering subsIdx599).1
  refine ⟨?_, ?_, ?_⟩
  · exact ((by decide : (4 : ℕ) * 0 = 0) ▸ h 0 (by decide)).trans (by decide)
  · exact ((by decide : (4 : ℕ) * 1 = 4) ▸ h 1 (by decide)).trans (by decide)
  · exact ((by decide : (4 : ℕ) * 2 = 8) ▸ h 2 (by decide)).trans (by decide)

/-! ### Batch characterization -/

theorem retry_det_val (env : Env) (portT : String → Except String String)
    (hdet : ∀ k t, env.port k t = portT t) (st : St) (text : String) :
    (translate_with_smart_retry env text 3 st).1 = valOf portT text := by
  unfold valOf
  cases hp : portT text with
  | ok v =>
      exact (retryAux_first_success env text 3 0 0 st v (by omega)
        (fun k hk => absurd hk (by omega))
        (by rw [Nat.add_zero, hdet, hp])).1
  | error e =>
      exact (retryAux_all_fail env text 3 3 0 st (by omega)
        (fun k _ => ⟨e, by rw [hdet, hp]⟩)).1

theorem retry_ok_calls (env : Env) (f : String → String)
    (hok : ∀ k t, env.port k t = Except.ok (f t)) (st : St) (text : String) :
    (translate_with_smart_retry env text 3 st).1 = f text ∧
      ((translate_with_smart_retry env text 3 st).2).calls = st.calls + 1 := by
  have h := retryAux_first_success env text 3 0 0 st (f text) (by omega)
    (fun k hk => absurd hk (by omega)) (by rw [Nat.add_zero, hok])
  exact ⟨h.1, by simpa using h.2⟩

theorem seqBatchAux_char (env : Env) (V : String → String)
    (hV : ∀ st text, (translate_with_smart_retry env text 3 st).1 = V text) :
    ∀ texts st d t,
      (seqBatchAux env texts st d).1 t
        = if t ∈ texts then some (V t) else d t := by
  intro texts
  induction texts with
  | nil =>
      intro st d t
      simp [seqBatchAux]
  | cons x rest ih =>
      intro st d t
      simp only [seqBatchAux]
      rw [ih]
      by_cases hx : t ∈ rest
      · simp [hx]
      · by_cases htx : t = x
        · subst htx
          simp [hx, hV]
        · simp [hx, htx]

theorem workerAux_char (env : Env) (V : String → String)
    (hV : ∀ st text, (translate_with_smart_retry env text 3 st).1 = V text) :
    ∀ texts st d t,
      (workerAux env texts st d).1 t
        = if t ∈ texts then some (V t) else d t := by
  intro texts
  induction texts with
  | nil =>
      intro st d t
      simp [workerAux]
  | cons x rest ih =>
      intro st d t
      simp only [workerAux]
      rw [ih]
      by_cases hx : t ∈ rest
      · simp [hx]
      · by_cases htx : t = x
        · subst htx
          simp [hx, hV]
        · simp [hx, htx]

theorem seqBatchAux_keys (env : Env) :
    ∀ texts st d t,
      ((seqBatchAux env texts st d).1 t).isSome
        = if t ∈ texts then true else (d t).isSome := by
  intro texts
  induction texts with
  | nil =>
      intro st d t
      simp [seqBatchAux]
  | cons x rest ih =>
      intro st d t
      simp only [seqBatchAux]
      rw [ih]
      by_cases hx : t ∈ rest
      · simp [hx]
      · by_cases htx : t = x
        · subst htx
          simp [hx]
        · simp [hx, htx]

theorem workerAux_keys (env : Env) :
    ∀ texts st d t,
      ((workerAux env texts st d).1 t).isSome
        = if t ∈ texts then true else (d t).isSome := by
  intro texts
  induction texts with
  | nil =>
      intro st d t
      simp [workerAux]
  | cons x rest ih =>
      intro st d t
      simp only [workerAux]
      rw [ih]
      by_cases hx : t ∈ rest
      · simp [hx]
      · by_cases htx : t = x
        · subst htx
          simp [hx]
        · simp [hx, htx]

theorem threadedAux_char (env : Env) (V : String → String)
    (hV : ∀ st text, (translate_with_smart_retry env text 3 st).1 = V text)
    (cs : List (List String)) :
    ∀ sched st d t,
      (threadedAux env cs sched st d).1 t
        = if t ∈ (sched.map (fun i => cs.getD i [])).flatten then some (V t)
          else d t := by
  intro sched
  induction sched with
  | nil =>
      intro st d t
      simp [threadedAux]
  | cons i rest ih =>
      intro st d t
      simp only [threadedAux]
      rw [ih]
      have hupd : dictUpdate d (translate_worker env (cs.getD i []) st).1 t
          = if t ∈ cs.getD i [] then some (V t) else d t := by
        unfold translate_worker dictUpdate
        rw [workerAux_char env V hV (cs.getD i []) st (fun _ => none) t]
        by_cases hc : t ∈ cs.getD i []
        · rw [if_pos hc, if_pos hc]
        · rw [if_neg hc, if_neg hc]
      rw [List.map_cons, List.flatten_cons]
      by_cases hr : t ∈ (rest.map (fun j => cs.getD j [])).flatten
      · rw [if_pos hr, if_pos (List.mem_append.mpr (Or.inr hr))]
      · rw [if_neg hr, hupd]
        by_cases hc : t ∈ cs.getD i []
        · rw [if_pos hc, if_pos (List.mem_append.mpr (Or.inl hc))]
        · rw [if_neg hc, if_neg (fun hx => by
            rcases List.mem_append.mp hx with hin | hin
            exacts [hc hin, hr hin])]

theorem threadedAux_keys (env : Env) (cs : List (List String)) :
    ∀ sched st d t,
      ((threadedAux env cs sched st d).1 t).isSome
        = if t ∈ (sched.map (fun i => cs.getD i [])).flatten then true
          else (d t).isSome := by
  intro sched
  induction sched with
  | nil =>
      intro st d t
      simp [threadedAux]
  | cons i rest ih =>
      intro st d t
      simp only [threadedAux]
      rw [ih]
      have hupd : (dictUpdate d (translate_worker env (cs.getD i []) st).1 t).isSome
          = if t ∈ cs.getD i [] then true else (d t).isSome := by
        unfold translate_worker dictUpdate
        cases hwt : (workerAux env (cs.getD i []) st (fun _ => none)).1 t with
        | some v =>
            have hw := workerAux_keys env (cs.getD i []) st (fun _ => none) t
            rw [hwt] at hw
            by_cases hc : t ∈ cs.getD i []
            · rw [if_pos hc]
              rfl
            · rw [if_neg hc] at hw
              simp at hw
        | none =>
            have hw := workerAux_keys env (cs.getD i []) st (fun _ => none) t
            rw [hwt] at hw
            by_cases hc : t ∈ cs.getD i []
            · rw [if_pos hc] at hw
              simp at hw
            · rw [if_neg hc]
      rw [List.map_cons, List.flatten_cons]
      by_cases hr : t ∈ (rest.map (fun j => cs.getD j [])).flatten
      · rw [if_pos hr, if_pos (List.mem_append.mpr (Or.inr hr))]
      · rw [if_neg hr, hupd]
        by_cases hc : t ∈ cs.getD i []
        · rw [if_pos hc, if_pos (List.mem_append.mpr (Or.inl hc))]
        · rw [if_neg hc, if_neg (fun hx => by
            rcases List.mem_append.mp hx with hin | hin
            exacts [hc hin, hr hin])]

theorem map_getD_range {α : Type} (l : List α) (d : α) :
    (List.range l.length).map (fun i => l.getD i d) = l := by
  induction l with
  | nil => rfl
  | cons x rest ih =>
      rw [List.length_cons, List.range_succ_eq_map]
      simp only [List.map_cons, List.getD_cons_zero, List.map_map,
        Function.comp_def, Nat.succ_eq_add_one, List.getD_cons_succ]
      rw [ih]

theorem chunks_flatten {α : Type} (bs : ℕ) (hbs : bs ≠ 0) (l : List α) :
    (chunks bs l).flatten = l := by
  induction l using chunks.induct bs with
  | case1 x h =>
      rw [chunks, dif_pos h]
      rcases h with h0 | hemp
      · exact absurd h0 hbs
      · rw [List.isEmpty_iff] at hemp
        simp [hemp]
  | case2 x h ih =>
      rw [chunks, dif_neg h]
      rw [List.flatten_cons, ih]
      exact List.take_append_drop bs x

theorem chunks_of_small {α : Type} (bs : ℕ) (l : List α) (hbs : bs ≠ 0)
    (hne : l ≠ []) (hle : l.length ≤ bs) : chunks bs l = [l] := by
  rw [chunks, dif_neg (by simp [hbs, List.isEmpty_iff, hne])]
  rw [List.take_of_length_le hle, List.drop_eq_nil_of_le hle]
  rw [chunks]
  simp

theorem sched_flatten_mem (texts : List String) (sched : List ℕ)
    (hs : sched.Perm (List.range (chunks 5 texts).length)) (t : String) :
    (t ∈ (sched.map (fun i => (chunks 5 texts).getD i [])).flatten)
      ↔ t ∈ texts := by
  have hperm := (hs.map (fun i => (chunks 5 texts).getD i [])).flatten
  rw [hperm.mem_iff]
  rw [map_getD_range (chunks 5 texts) []]
  rw [chunks_flatten 5 (by norm_num) texts]

/-- C5: under any deterministic translation port (each call's outcome a
function of the text alone), the threaded batch mode — for every queue
completion order that merges each worker exactly once — and the sequential
batch mode produce identical text-to-translation mappings on identical
input text lists, from any starting states. -/
theorem C5_modes_agree (portT : String → Except String String)
    (env1 env2 : Env) (texts : List String) (sched : List ℕ) (st1 st2 : St)
    (h1 : ∀ k t, env1.port k t = portT t)
    (h2 : ∀ k t, env2.port k t = portT t)
    (hs : sched.Perm (List.range (chunks 5 texts).length)) :
    ∀ t, (translate_batch_threaded_safe env1 texts sched st1).1 t
       = (translate_batch_sequential env2 texts st2).1 t := by
  intro t
  have hV1 : ∀ st text,
      (translate_with_smart_retry env1 text 3 st).1 = valOf portT text :=
    fun st text => retry_det_val env1 portT h1 st text
  have hV2 : ∀ st text,
      (translate_with_smart_retry env2 text 3 st).1 = valOf portT text :=
    fun st text => retry_det_val env2 portT h2 st text
  unfold translate_batch_threaded_safe translate_batch_sequential
  rw [threadedAux_char env1 (valOf portT) hV1 (chunks 5 texts),
    seqBatchAux_char env2 (valOf portT) hV2]
  have hmem := sched_flatten_mem texts sched hs t
  by_cases hm : t ∈ texts
  · rw [if_pos (hmem.mpr hm), if_pos hm]
  · rw [if_neg (fun hx => hm (hmem.mp hx)), if_neg hm]

/-- Witness for C5: one text, one chunk, the singleton queue order. -/
theorem C5_witness :
    (translate_batch_threaded_safe envOk ["Hello"] [0] st0).1 "Hello"
      = (translate_batch_sequential envOk ["Hello"] st0).1 "Hello" := by
  refine C5_modes_agree (fun t => Except.ok (trFun t)) envOk envOk ["Hello"]
    [0] st0 st0 (fun _ _ => rfl) (fun _ _ => rfl) ?_ "Hello"
  rw [chunks_of_small 5 ["Hello"] (by norm_num) (by simp) (by simp)]
  simp [List.range_succ]

/-- C10: the mapping returned by the sequential batch mode is total over its
input — a key is present iff it is one of the input texts — and likewise for
the threaded mode under any queue order merging every worker once; moreover
when the port fails every call (the exception case), every input text is
mapped to itself, so no key is ever absent. -/
theorem C10_mapping_total (env : Env) (texts : List String) (st : St)
    (sched : List ℕ) :
    (∀ t, ((translate_batch_sequential env texts st).1 t).isSome = true
        ↔ t ∈ texts)
    ∧ (sched.Perm (List.range (chunks 5 texts).length) →
        ∀ t, ((translate_batch_threaded_safe env texts sched st).1 t).isSome
            = true ↔ t ∈ texts)
    ∧ ((∀ k u, ∃ e, env.port k u = Except.error e) →
        ∀ t, t ∈ texts →
          (translate_batch_sequential env texts st).1 t = some t) := by
  refine ⟨?_, ?_, ?_⟩
  · intro t
    unfold translate_batch_sequential
    rw [seqBatchAux_keys]
    by_cases hm : t ∈ texts <;> simp [hm]
  · intro hs t
    unfold translate_batch_threaded_safe
    rw [threadedAux_keys]
    have hmem := sched_flatten_mem texts sched hs t
    by_cases hm : t ∈ texts
    · rw [if_pos (hmem.mpr hm)]
      simp [hm]
    · rw [if_neg (fun hx => hm (hmem.mp hx))]
      simp [hm]
  · intro hfail t hm
    have hV : ∀ st' text,
        (translate_with_smart_retry env text 3 st').1 = (fun x => x) text :=
      fun st' text =>
        (retryAux_all_fail env text 3 3 0 st' rfl
          (fun k _ => hfail (st'.calls + k) text)).1
    unfold translate_batch_sequential
    rw [seqBatchAux_char env (fun x => x) hV]
    simp [hm]

/-- Witness for C10: the always-failing port on the one-text list. -/
theorem C10_witness :
    (((translate_batch_sequential envFail ["a"] st0).1 "a").isSome = true)
    ∧ ((translate_batch_sequential envFail ["a"] st0).1 "a" = some "a")
    ∧ (((translate_batch_threaded_safe envFail ["a"] [0] st0).1 "a").isSome
        = true) := by
  have h := C10_mapping_total envFail ["a"] st0 [0]
  refine ⟨(h.1 "a").mpr (by simp),
    h.2.2 (fun k u => ⟨"boom", rfl⟩) "a" (by simp), ?_⟩
  refine ((h.2.1 ?_) "a").mpr (by simp)
  rw [chunks_of_small 5 ["a"] (by norm_num) (by simp) (by simp)]
  simp [List.range_succ]

/-! ### Call counting under an always-succeeding port -/

theorem seqBatchAux_calls_ok (env : Env) (f : String → String)
    (hok : ∀ k t, env.port k t = Except.ok (f t)) :
    ∀ texts st d,
      ((seqBatchAux env texts st d).2).calls = st.calls + texts.length := by
  intro texts
  induction texts with
  | nil =>
      intro st d
      simp [seqBatchAux]
  | cons x rest ih =>
      intro st d
      simp only [seqBatchAux]
      rw [ih]
      dsimp only
      rw [(retry_ok_calls env f hok st x).2]
      simp only [List.length_cons]
      omega

theorem workerAux_calls_ok (env : Env) (f : String → String)
    (hok : ∀ k t, env.port k t = Except.ok (f t)) :
    ∀ texts st d,
      ((workerAux env texts st d).2).calls = st.calls + texts.length := by
  intro texts
  induction texts with
  | nil =>
      intro st d
      simp [workerAux]
  | cons x rest ih =>
      intro st d
      simp only [workerAux]
      rw [ih]
      dsimp only
      rw [(retry_ok_calls env f hok st x).2]
      simp only [List.length_cons]
      omega

theorem threadedAux_calls_ok (env : Env) (f : String → String)
    (hok : ∀ k t, env.port k t = Except.ok (f t)) (cs : List (List String)) :
    ∀ sched st d,
      ((threadedAux env cs sched st d).2).calls
        = st.calls + (sched.map (fun i => (cs.getD i []).length)).sum := by
  intro sched
  induction sched with
  | nil =>
      intro st d
      simp [threadedAux]
  | cons i rest ih =>
      intro st d
      simp only [threadedAux]
      rw [ih]
      unfold translate_worker
      rw [workerAux_calls_ok env f hok]
      simp only [List.map_cons, List.sum_cons]
      omega

theorem chunk_lengths_sum (b : List String) :
    ((List.range (chunks 5 b).length).map
        (fun j => ((chunks 5 b).getD j []).length)).sum = b.length := by
  have hmaps : (List.range (chunks 5 b).length).map
      (fun j => ((chunks 5 b).getD j []).length)
      = (chunks 5 b).map List.length := by
    conv_rhs => rw [← map_getD_range (chunks 5 b) []]
    rw [List.map_map]
    rfl
  rw [hmaps, ← List.length_flatten, chunks_flatten 5 (by norm_num) b]

theorem batchLoop_calls_ok (env : Env) (f : String → String)
    (hok : ∀ k t, env.port k t = Except.ok (f t)) :
    ∀ cs i st d,
      (∀ j, j < cs.length →
        (env.sched (i + j)).Perm
          (List.range (chunks 5 (cs.getD j [])).length)) →
      ((batchLoop env i cs st d).2).calls
        = st.calls + (cs.map List.length).sum := by
  intro cs
  induction cs with
  | nil =>
      intro i st d _
      simp [batchLoop]
  | cons b rest ih =>
      intro i st d hs
      simp only [batchLoop]
      rw [ih (i + 1) _ _ (fun j hj => by
        have hsj := hs (j + 1) (by simpa using Nat.succ_lt_succ hj)
        rw [show i + (j + 1) = i + 1 + j by omega] at hsj
        simpa using hsj)]
      have hbatch :
          ((if b.length ≤ 10 then
              translate_batch_threaded_safe env b (env.sched i) st
            else translate_batch_sequential env b st).2).calls
            = st.calls + b.length := by
        split_ifs with hsz
        · unfold translate_batch_threaded_safe
          rw [threadedAux_calls_ok env f hok]
          have hperm := hs 0 (by simp)
          rw [Nat.add_zero] at hperm
          rw [show (b :: rest).getD 0 [] = b from rfl] at hperm
          rw [(hperm.map (fun j => ((chunks 5 b).getD j []).length)).sum_eq]
          rw [chunk_lengths_sum b]
        · unfold translate_batch_sequential
          rw [seqBatchAux_calls_ok env f hok]
      dsimp only
      rw [hbatch]
      simp only [List.map_cons, List.sum_cons]
      omega

theorem batchLoop_char (env : Env) (V : String → String)
    (hV : ∀ st text, (translate_with_smart_retry env text 3 st).1 = V text) :
    ∀ cs i st d,
      (∀ j, j < cs.length →
        (env.sched (i + j)).Perm
          (List.range (chunks 5 (cs.getD j [])).length)) →
      ∀ t, (batchLoop env i cs st d).1 t
        = if t ∈ cs.flatten then some (V t) else d t := by
  intro cs
  induction cs with
  | nil =>
      intro i st d _ t
      simp [batchLoop]
  | cons b rest ih =>
      intro i st d hs t
      simp only [batchLoop]
      rw [ih (i + 1) _ _ (fun j hj => by
        have hsj := hs (j + 1) (by simpa using Nat.succ_lt_succ hj)
        rw [show i + (j + 1) = i + 1 + j by omega] at hsj
        simpa using hsj)]
      have hbatch :
          ((if b.length ≤ 10 then
              translate_batch_threaded_safe env b (env.sched i) st
            else translate_batch_sequential env b st).1) t
            = if t ∈ b then some (V t) else none := by
        by_cases hsz : b.length ≤ 10
        · rw [if_pos hsz]
          unfold translate_batch_threaded_safe
          rw [threadedAux_char env V hV]
          have hperm := hs 0 (by simp)
          rw [Nat.add_zero] at hperm
          rw [show (b :: rest).getD 0 [] = b from rfl] at hperm
          have hmem := sched_flatten_mem b (env.sched i) hperm t
          by_cases hm : t ∈ b
          · rw [if_pos (hmem.mpr hm), if_pos hm]
          · rw [if_neg (fun hx => hm (hmem.mp hx)), if_neg hm]
        · rw [if_neg hsz]
          unfold translate_batch_sequential
          rw [seqBatchAux_char env V hV]
      rw [List.flatten_cons]
      by_cases hr : t ∈ rest.flatten
      · rw [if_pos hr, if_pos (List.mem_append.mpr (Or.inr hr))]
      · rw [if_neg hr]
        have hupd : dictUpdate d
            ((if b.length ≤ 10 then
                translate_batch_threaded_safe env b (env.sched i) st
              else translate_batch_sequential env b st).1) t
            = if t ∈ b then some (V t) else d t := by
          unfold dictUpdate
          rw [hbatch]
          by_cases hm : t ∈ b
          · rw [if_pos hm, if_pos hm]
          · rw [if_neg hm, if_neg hm]
        rw [hupd]
        by_cases hm : t ∈ b
        · rw [if_pos hm, if_pos (List.mem_append.mpr (Or.inl hm))]
        · rw [if_neg hm, if_neg (fun hx => by
            rcases List.mem_append.mp hx with hin | hin
            exacts [hm hin, hr hin])]

theorem singleFileCore_char (env : Env) (V : String → String)
    (hV : ∀ st text, (translate_with_smart_retry env text 3 st).1 = V text)
    (subs : List SubEntry) (st : St)
    (hs : GoodScheds env (texts_to_translate subs)) (t : String) :
    (singleFileCore env subs st).1 t
      = if t ∈ texts_to_translate subs then some (V t) else none := by
  unfold singleFileCore
  rw [batchLoop_char env V hV _ 0 _ _ (fun j hj => by simpa using hs j hj) t]
  rw [chunks_flatten 25 (by norm_num)]

theorem single_file_calls_ok (env : Env) (f : String → String)
    (hok : ∀ k t, env.port k t = Except.ok (f t)) (subs : List SubEntry)
    (name : String) (st : St)
    (hs : GoodScheds env (texts_to_translate subs)) :
    ((translate_single_file_ultra_fast env (Except.ok subs) name st).2).calls
      = st.calls + (texts_to_translate subs).length := by
  simp only [translate_single_file_ultra_fast]
  by_cases hempty : (texts_to_translate subs).isEmpty
  · rw [if_pos hempty]
    rw [List.isEmpty_iff] at hempty
    simp [hempty]
  · rw [if_neg hempty]
    dsimp only
    unfold singleFileCore
    rw [batchLoop_calls_ok env f hok _ 0 _ _ (fun j hj => by simpa using hs j hj)]
    rw [show (initTranslator st).calls = st.calls from rfl]
    rw [← List.length_flatten, chunks_flatten 25 (by norm_num)]

theorem getD_map_of_lt {α β : Type} (g : α → β) (l : List α) (i : ℕ)
    (h : i < l.length) (d : α) (d' : β) :
    (l.map g).getD i d' = g (l.getD i d) := by
  rw [List.getD_eq_getElem?_getD, List.getD_eq_getElem?_getD,
    List.getElem?_map, List.getElem?_eq_getElem h]
  rfl

theorem getD_mem_of_lt {α : Type} (l : List α) (i : ℕ) (h : i < l.length)
    (d : α) : l.getD i d ∈ l := by
  rw [List.getD_eq_getElem?_getD, List.getElem?_eq_getElem h]
  exact List.getElem_mem h

theorem goodScheds_hello3 : GoodScheds envOk (texts_to_translate subsHello3) := by
  intro j hj
  have htexts : texts_to_translate subsHello3 = ["Hello", "Hello", "Hello"] :=
    rfl
  rw [htexts] at hj ⊢
  rw [chunks_of_small 25 _ (by norm_num) (by decide) (by decide)] at hj ⊢
  simp only [List.length_cons, List.length_nil] at hj
  have hj0 : j = 0 := by omega
  subst hj0
  rw [show ([["Hello", "Hello", "Hello"]].getD 0 [])
      = ["Hello", "Hello", "Hello"] from rfl]
  rw [chunks_of_small 5 _ (by norm_num) (by decide) (by decide)]
  decide

/-- C1 (amended): with a port that succeeds on every call, translating a
parsed document makes exactly one remote call per occurrence of a
translatable (non-empty after stripping) text — so a distinct text appearing
`k` times causes exactly `k` remote calls, not one — and every translatable
entry's text is replaced by the port's translation of that text, so all `k`
occurrences of the same text do receive the same translated value. -/
theorem C1_per_occurrence_calls (env : Env) (f : String → String)
    (subs : List SubEntry) (name : String) (st : St)
    (hok : ∀ k t, env.port k t = Except.ok (f t))
    (hs : GoodScheds env (texts_to_translate subs)) :
    ((translate_single_file_ultra_fast env (Except.ok subs) name st).2).calls
        = st.calls + (texts_to_translate subs).length
    ∧ ∀ i, i < subs.length →
        strip_truthy ((subs.getD i dummySub).text) = true →
        ((translatedDoc env subs st).getD i dummySub).text
          = f ((subs.getD i dummySub).text) := by
  constructor
  · exact single_file_calls_ok env f hok subs name st hs
  · intro i hi hstrip
    have hmem : (subs.getD i dummySub).text ∈ texts_to_translate subs := by
      unfold texts_to_translate
      apply List.mem_map.mpr
      refine ⟨subs.getD i dummySub, ?_, rfl⟩
      apply List.mem_filter.mpr
      exact ⟨getD_mem_of_lt subs i hi dummySub, hstrip⟩
    have hne : ¬ (texts_to_translate subs).isEmpty = true := by
      intro hemp
      rw [List.isEmpty_iff] at hemp
      rw [hemp] at hmem
      simp at hmem
    unfold translatedDoc
    rw [if_neg hne]
    unfold applySubst
    rw [getD_map_of_lt _ subs i hi dummySub dummySub]
    have hdict := singleFileCore_char env f
      (fun st' text => (retry_ok_calls env f hok st' text).1) subs st hs
      ((subs.getD i dummySub).text)
    rw [if_pos hmem] at hdict
    rw [hdict]
    rw [if_pos (show (strip_truthy ((subs.getD i dummySub).text)
        && (some (f ((subs.getD i dummySub).text))).isSome) = true by
      rw [hstrip]
      rfl)]
    rfl

/-- C1 counterexample: a document with three entries all holding the single
distinct non-empty text "Hello" (k = 3) causes three remote translation
calls under an always-succeeding port, not one. -/
theorem C1_counterexample :
    ((translate_single_file_ultra_fast envOk (Except.ok subsHello3) "a.srt"
        st0).2).calls = 3
    ∧ ((translate_single_file_ultra_fast envOk (Except.ok subsHello3) "a.srt"
        st0).2).calls ≠ 1 := by
  have h := single_file_calls_ok envOk trFun (fun _ _ => rfl) subsHello3
    "a.srt" st0 goodScheds_hello3
  rw [h]
  constructor
  · decide
  · decide

/-- Witness for C1 (amended) on the three-Hello document: three calls, and
entry 0 receives the stub translation of "Hello". -/
theorem C1_witness :
    ((translate_single_file_ultra_fast envOk (Except.ok subsHello3) "w.srt"
        st0).2).calls = st0.calls + (texts_to_translate subsHello3).length
    ∧ ((translatedDoc envOk subsHello3 st0).getD 0 dummySub).text
        = trFun ((subsHello3.getD 0 dummySub).text) := by
  have h := C1_per_occurrence_calls envOk trFun subsHello3 "w.srt" st0
    (fun _ _ => rfl) goodScheds_hello3
  exact ⟨h.1, h.2 0 (by decide) (by decide)⟩

/-- C9: translating a parsed document only substitutes entry texts: the
result's content is the serialization of `translatedDoc`, which has the same
entry count as the input (nothing inserted or removed), preserves every
entry's start and end timestamps in order, and keeps the text of every
empty/whitespace-only entry verbatim. -/
theorem C9_frame (env : Env) (subs : List SubEntry) (name : String) (st : St) :
    ((translate_single_file_ultra_fast env (Except.ok subs) name st).1).content
        = some (srt_to_string (translatedDoc env subs st))
    ∧ (translatedDoc env subs st).length = subs.length
    ∧ ∀ i, i < subs.length →
        ((translatedDoc env subs st).getD i dummySub).start
            = (subs.getD i dummySub).start
        ∧ ((translatedDoc env subs st).getD i dummySub).end_
            = (subs.getD i dummySub).end_
        ∧ (strip_truthy ((subs.getD i dummySub).text) = false →
            ((translatedDoc env subs st).getD i dummySub).text
              = (subs.getD i dummySub).text) := by
  refine ⟨?_, ?_, ?_⟩
  · simp only [translate_single_file_ultra_fast, translatedDoc]
    by_cases he : (texts_to_translate subs).isEmpty = true
    · rw [if_pos he, if_pos he]
    · rw [if_neg he, if_neg he]
  · unfold translatedDoc
    by_cases he : (texts_to_translate subs).isEmpty = true
    · rw [if_pos he]
    · rw [if_neg he]
      unfold applySubst
      exact List.length_map _ _
  · intro i hi
    unfold translatedDoc
    by_cases he : (texts_to_translate subs).isEmpty = true
    · rw [if_pos he]
      exact ⟨rfl, rfl, fun _ => rfl⟩
    · rw [if_neg he]
      unfold applySubst
      rw [getD_map_of_lt _ subs i hi dummySub dummySub]
      by_cases hcond : (strip_truthy ((subs.getD i dummySub).text)
          && ((singleFileCore env subs st).1
              ((subs.getD i dummySub).text)).isSome) = true
      · rw [if_pos hcond]
        refine ⟨rfl, rfl, fun hfalse => ?_⟩
        rw [Bool.and_eq_true] at hcond
        rw [hcond.1] at hfalse
        simp at hfalse
      · rw [if_neg hcond]
        exact ⟨rfl, rfl, fun _ => rfl⟩

/-- Witness for C9 on a document with one translatable and one
whitespace-only entry: length preserved, entry 1 keeps its start time and
its text verbatim. -/
theorem C9_witness :
    (translatedDoc envOk subsWs st0).length = subsWs.length
    ∧ ((translatedDoc envOk subsWs st0).getD 1 dummySub).start
        = (subsWs.getD 1 dummySub).start
    ∧ ((translatedDoc envOk subsWs st0).getD 1 dummySub).text
        = (subsWs.getD 1 dummySub).text := by
  have h := C9_frame envOk subsWs "w2.srt" st0
  have h1 := h.2.2 1 (by decide)
  exact ⟨h.2.1, h1.1, h1.2.2 (by decide)⟩

theorem single_file_ok_fields (env : Env) (subs : List SubEntry)
    (name : String) (st : St) :
    ((translate_single_file_ultra_fast env (Except.ok subs) name st).1).status
        = "success"
    ∧ ((translate_single_file_ultra_fast env (Except.ok subs) name
          st).1).filename = name := by
  simp only [translate_single_file_ultra_fast]
  by_cases he : (texts_to_translate subs).isEmpty = true
  · rw [if_pos he]
    exact ⟨rfl, rfl⟩
  · rw [if_neg he]
    exact ⟨rfl, rfl⟩

/-- C6: a collection run always completes with exactly one result per input
document in submission order; a document whose parse raises is converted to
a status-error result carrying that document's message, and every document
whose parse succeeds still yields a success result regardless of its
siblings. -/
theorem C6_collection_results (env : Env) (files : List FileInfo) (st : St) :
    ((translate_multiple_files_sequential env files st).1).length
        = files.length
    ∧ ∀ i, i < files.length →
        (∀ e, (files.getD i dummyFile).parsed = Except.error e →
          ((translate_multiple_files_sequential env files st).1).getD i
              dummyResult
            = { filename := (files.getD i dummyFile).name, content := none,
                status := "error", subtitle_count := none, error := some e })
        ∧ (∀ subs, (files.getD i dummyFile).parsed = Except.ok subs →
            (((translate_multiple_files_sequential env files st).1).getD i
                dummyResult).status = "success"
            ∧ (((translate_multiple_files_sequential env files st).1).getD i
                dummyResult).filename = (files.getD i dummyFile).name) := by
  induction files generalizing st with
  | nil =>
      refine ⟨rfl, ?_⟩
      intro i hi
      simp at hi
  | cons fi rest ih =>
      constructor
      · simp only [translate_multiple_files_sequential]
        rw [List.length_cons, List.length_cons, (ih _).1]
      · intro i hi
        cases i with
        | zero =>
            simp only [translate_multiple_files_sequential]
            constructor
            · intro e he
              rw [show (fi :: rest).getD 0 dummyFile = fi from rfl] at he
              rw [List.getD_cons_zero]
              rw [he]
              rfl
            · intro subs hsubs
              rw [show (fi :: rest).getD 0 dummyFile = fi from rfl] at hsubs
              rw [List.getD_cons_zero]
              rw [hsubs]
              exact ⟨(single_file_ok_fields env subs fi.name st).1,
                (single_file_ok_fields env subs fi.name st).2⟩
        | succ m =>
            have hm : m < rest.length := by
              simpa using Nat.lt_of_succ_lt_succ (by simpa using hi)
            simp only [translate_multiple_files_sequential]
            rw [List.getD_cons_succ, List.getD_cons_succ]
            exact (ih _).2 m hm

/-- Witness for C6: two files, the second malformed — two results in order,
the second an error carrying the message, the first a success. -/
theorem C6_witness :
    ((translate_multiple_files_sequential envOk filesW st0).1).length = 2
    ∧ ((translate_multiple_files_sequential envOk filesW st0).1).getD 1
          dummyResult
        = { filename := "bad.srt", content := none, status := "error",
            subtitle_count := none,
            error := some "FormatError: missing timing" }
    ∧ (((translate_multiple_files_sequential envOk filesW st0).1).getD 0
          dummyResult).status = "success" := by
  have h := C6_collection_results envOk filesW st0
  refine ⟨h.1, ?_, ?_⟩
  · exact (h.2 1 (by decide)).1 "FormatError: missing timing" rfl
  · exact ((h.2 0 (by decide)).2 [entryHello] rfl).1
